import Mathlib

/-!
# stremthru: store catalog (`internal/stremio/store/catalog.go`)

A shallow embedding of the catalog pipeline of the store add-on: the paginated
fetch loops, the catalog cache key, the extra-parameter parser, the search
filter, the pager and the poster enrichment of `handleCatalog`.

Conventions of the embedding.

* Go `string` values are Lean `String`s (sequences of Unicode code points);
  rune-wise library functions (`strings.ToLower`, the regexp engine) act on
  `String.data`.
* Go `int` is the 64-bit two's complement integer: values are `Int`s and the
  one addition that can overflow is wrapped with `wrapInt`.
* A run-time panic is the `Except.error` result of the operation that raises it.
* Library or repository functions whose body is not part of the two source
  files are taken as fields of `Deps`.
-/

namespace StremThru

/-! ## Go integers and slice expressions -/

deriving instance DecidableEq for Except

/-- Largest Go `int` on the 64-bit targets, `2 ^ 63 - 1`. -/
def maxInt : Int := 9223372036854775807

/-- Smallest Go `int` on the 64-bit targets, `-2 ^ 63`. -/
def minInt : Int := -9223372036854775808

/-- Two's complement wrap-around of an exact integer result into the range of `int`:
the representative of `x` modulo `2 ^ 64` between `minInt` and `maxInt`. -/
def wrapInt (x : Int) : Int :=
  (x + 9223372036854775808) % 18446744073709551616 - 9223372036854775808

/-- The slice expression `s[lo:hi]` of Go on a slice whose capacity equals its length:
it panics unless `0 ≤ lo ≤ hi ≤ len(s)`. -/
def sliceExpr {α : Type} (s : List α) (lo hi : Int) : Except String (List α) :=
  if 0 ≤ lo ∧ lo ≤ hi ∧ hi ≤ (s.length : Int) then
    Except.ok ((s.drop lo.toNat).take (hi.toNat - lo.toNat))
  else
    Except.error "runtime error: slice bounds out of range"

/-! ## Data model -/

/-- The record `stremio.MetaPreview`, restricted to the fields the catalog assigns. -/
structure MetaPreview where
  Id : String := ""
  Type_ : String := ""
  Name : String := ""
  Description : String := ""
  PosterShape : String := ""
  Poster : String := ""
  deriving DecidableEq, Repr, Inhabited

/-- The record `CachedCatalogItem`: an embedded `MetaPreview` and the content hash. -/
structure CachedCatalogItem where
  toMetaPreview : MetaPreview := {}
  hash : String := ""
  deriving DecidableEq, Repr, Inhabited

/-- The record `ExtraData`. -/
structure ExtraData where
  Search : String := ""
  Skip : Int := 0
  Genre : String := ""
  deriving DecidableEq, Repr, Inhabited

/-- The map `url.Values`: keys with their value lists, in insertion order of the keys. -/
abbrev Values := List (String × List String)

/-- The method `url.Values.Get`: the first value of the key, or the empty string. -/
def Values.Get (q : Values) (key : String) : String :=
  match q.lookup key with
  | some (v :: _) => v
  | _ => ""

/-! ## `strconv.Atoi` -/

/-- Value of a decimal digit rune, if it is one. -/
def digitVal (c : Char) : Option Nat :=
  if '0' ≤ c ∧ c ≤ '9' then some (c.toNat - '0'.toNat) else none

/-- Reads a non-empty run of decimal digits, most significant first, onto an accumulator. -/
def parseDigits : List Char → Nat → Option Nat
  | [], acc => some acc
  | c :: cs, acc =>
    match digitVal c with
    | some d => parseDigits cs (10 * acc + d)
    | none => none

/-- The function `strconv.Atoi`: an optional sign, then one or more decimal digits, the
value lying in the range of `int`; anything else is an error (`none`). -/
def Atoi (s : String) : Option Int :=
  let body (neg : Bool) (ds : List Char) : Option Int :=
    match ds with
    | [] => none
    | _ :: _ =>
      match parseDigits ds 0 with
      | none => none
      | some n =>
        let v : Int := if neg then -(n : Int) else (n : Int)
        if minInt ≤ v ∧ v ≤ maxInt then some v else none
  match s.data with
  | [] => none
  | '+' :: ds => body false ds
  | '-' :: ds => body true ds
  | ds => body false ds

/-! ## Functions and constants defined outside the two source files -/

/-- What `catalog.go` takes from the Go library and from the rest of the repository. -/
structure Deps where
  /-- The function `unicode.ToLower`, which `strings.ToLower` applies to every rune. -/
  ToLower : Char → Char
  /-- The function `url.ParseQuery`: the parsed values, or the first decoding error. -/
  ParseQuery : String → Except String Values
  /-- The constant `ContentTypeOther`. -/
  ContentTypeOther : String
  /-- The constant `stremio.MetaPosterShapePoster`. -/
  MetaPosterShapePoster : String
  /-- The constant `store.MagnetStatusDownloaded`. -/
  MagnetStatusDownloaded : String
  /-- The constant `CatalogGenreStremThru`. -/
  CatalogGenreStremThru : String
  /-- The constant `store.StoreCodeRealDebrid`. -/
  StoreCodeRealDebrid : String
  /-- The function `getMetaPreviewDescriptionForTorrent (hash, name)`. -/
  getMetaPreviewDescriptionForTorrent : String → String → String
  /-- The function `getMetaPreviewDescriptionForUsenet (hash, name, largestFileName)`. -/
  getMetaPreviewDescriptionForUsenet : String → String → String → String
  /-- The function `getStoreActionId`. -/
  getStoreActionId : String → String
  /-- The function `getPosterUrl`. -/
  getPosterUrl : String → String

/-! ## `getExtra` and `getCatalogCacheKey` -/

/-- The function `getExtra`, on the value of the `extra` path parameter. -/
def getExtra (deps : Deps) (extraParams : String) : ExtraData :=
  let extra : ExtraData := {}
  if extraParams ≠ "" then
    match deps.ParseQuery extraParams with
    | Except.ok q =>
      let extra :=
        let search := q.Get "search"
        if search ≠ "" then { extra with Search := search } else extra
      let extra :=
        let skipStr := q.Get "skip"
        if skipStr ≠ "" then
          match Atoi skipStr with
          | some skip => { extra with Skip := skip }
          | none => extra
        else extra
      let extra :=
        let genre := q.Get "genre"
        if genre ≠ "" then { extra with Genre := genre } else extra
      extra
    | Except.error _ => extra
  else extra

/-- The function `getCatalogCacheKey`. -/
def getCatalogCacheKey (idPrefix storeToken : String) : String :=
  idPrefix ++ storeToken

/-! ## The pager of `handleCatalog` -/

/-- Lines 248 to 250 of `handleCatalog`: `limit := 100`, `totalItems := len(items)` and
`items[min(extra.Skip, totalItems):min(extra.Skip+limit, totalItems)]`. -/
def pageItems {α : Type} (items : List α) (skip : Int) : Except String (List α) :=
  let limit : Int := 100
  let totalItems : Int := items.length
  sliceExpr items (min skip totalItems) (min (wrapInt (skip + limit)) totalItems)

/-! ## The remote listing source and the catalog cache -/

/-- The constant `max_fetch_list_items`. -/
def max_fetch_list_items : Nat := 2000

/-- The constant `fetch_list_limit`. -/
def fetch_list_limit : Nat := 500

/-- The parameters `store.ListMagnetsParams` and `stremio_usenet.ListNewsParams`. -/
structure ListParams where
  Limit : Nat
  Offset : Nat
  ClientIP : String
  APIKey : String
  deriving DecidableEq, Repr

/-- An item of `store.ListMagnetsData.Items`. -/
structure MagnetListItem where
  Id : String
  Name : String
  Hash : String
  Size : Int
  Status : String
  deriving DecidableEq, Repr

/-- An item of the data `stremio_usenet.ListNews` returns; `LargestFileName` is the value
of its method `GetLargestFileName`. -/
structure NewsListItem where
  Id : String
  Name : String
  Hash : String
  Status : String
  LargestFileName : String
  deriving DecidableEq, Repr

/-- The data of one page: `store.ListMagnetsData`, or that of `ListNews`. -/
structure ListData (α : Type) where
  Items : List α
  TotalItems : Int
  deriving DecidableEq, Repr

/-- The record `torrent_info.TorrentInfoInsertData`. -/
structure TorrentInfoInsertData where
  Hash : String
  TorrentTitle : String
  Size : Int
  Source : String
  deriving DecidableEq, Repr

/-- The remote listing source over the states `σ` of the remote side: the two listing
calls, each answering with data or an error and moving the remote state on. -/
structure Store (σ : Type) where
  /-- The code `s.GetName().Code()`. -/
  Code : String
  /-- The method `s.ListMagnets`. -/
  ListMagnets : σ → ListParams → Except String (ListData MagnetListItem) × σ
  /-- The function `stremio_usenet.ListNews` for the store `s.GetName()`. -/
  ListNews : σ → ListParams → Except String (ListData NewsListItem) × σ

/-- One page request with the answer it got. -/
structure Exchange (α : Type) where
  params : ListParams
  response : Except String (ListData α)

/-- The content of `catalogCache` at the time of the request: the live entries, newest
first. -/
abbrev Cache := List (String × List CachedCatalogItem)

/-- The method `catalogCache.Get`. -/
def Cache.Get (c : Cache) (key : String) : Option (List CachedCatalogItem) :=
  c.lookup key

/-- The method `catalogCache.Add`. -/
def Cache.Add (c : Cache) (key : String) (items : List CachedCatalogItem) : Cache :=
  (key, items) :: c

/-! ## The fetch loops -/

/-- State of a fetch loop when it ends: what it accumulated, the remote state and the
requests it issued, oldest first. -/
structure LoopEnd (σ α β : Type) where
  acc : β
  remote : σ
  trace : List (Exchange α)

/-- The loop `for hasMore && offset < max_fetch_list_items` of `getUsenetCatalogItems`
(lines 43 to 71) and of `getCatalogItems` (lines 92 to 124); `list` is the listing call
and `step` the body of the inner loop over `res.Items`. -/
def fetchLoop {σ α β : Type} (list : σ → ListParams → Except String (ListData α) × σ)
    (storeToken clientIp : String) (step : β → α → β)
    (offset : Nat) (hasMore : Bool) (acc : β) (remote : σ) (trace : List (Exchange α)) :
    LoopEnd σ α β :=
  if _h : hasMore = true ∧ offset < max_fetch_list_items then
    let params : ListParams :=
      { Limit := fetch_list_limit, Offset := offset, ClientIP := clientIp, APIKey := storeToken }
    match list remote params with
    | (Except.error err, remote) =>
      { acc := acc, remote := remote, trace := trace ++ [⟨params, Except.error err⟩] }
    | (Except.ok res, remote) =>
      let acc := res.Items.foldl step acc
      let offset' := offset + fetch_list_limit
      let hasMore := decide (res.Items.length = fetch_list_limit) &&
        decide ((offset' : Int) < res.TotalItems)
      fetchLoop list storeToken clientIp step offset' hasMore acc remote
        (trace ++ [⟨params, Except.ok res⟩])
  else
    { acc := acc, remote := remote, trace := trace }
termination_by max_fetch_list_items - offset
decreasing_by
  simp only [fetch_list_limit]
  omega

/-- Lines 56 to 67: the body of the loop over `res.Items` in `getUsenetCatalogItems`. -/
def appendNews (deps : Deps) (idPrefix : String) (items : List CachedCatalogItem)
    (item : NewsListItem) : List CachedCatalogItem :=
  if item.Status = deps.MagnetStatusDownloaded then
    let cItem : CachedCatalogItem :=
      { toMetaPreview :=
          { Id := idPrefix ++ item.Id
            Type_ := deps.ContentTypeOther
            Name := item.LargestFileName
            PosterShape := deps.MetaPosterShapePoster }
        hash := item.Hash }
    let cItem : CachedCatalogItem :=
      { cItem with
        toMetaPreview :=
          { cItem.toMetaPreview with
            Description :=
              deps.getMetaPreviewDescriptionForUsenet cItem.hash item.Name
                cItem.toMetaPreview.Name } }
    items ++ [cItem]
  else items

/-- Lines 104 to 120: the body of the loop over `res.Items` in `getCatalogItems`, on the
pair of `items` and `tInfoItems`. -/
def appendMagnet (deps : Deps) (idPrefix tInfoSource : String)
    (acc : List CachedCatalogItem × List TorrentInfoInsertData) (item : MagnetListItem) :
    List CachedCatalogItem × List TorrentInfoInsertData :=
  let items :=
    if item.Status = deps.MagnetStatusDownloaded then
      acc.1 ++
        [{ toMetaPreview :=
            { Id := idPrefix ++ item.Id
              Type_ := deps.ContentTypeOther
              Name := item.Name
              Description := deps.getMetaPreviewDescriptionForTorrent item.Hash item.Name
              PosterShape := deps.MetaPosterShapePoster }
           hash := item.Hash }]
    else acc.1
  let tInfoItems :=
    acc.2 ++
      [{ Hash := item.Hash, TorrentTitle := item.Name, Size := item.Size, Source := tInfoSource }]
  (items, tInfoItems)

/-- The call `go torrent_info.Upsert(items, category, discardIdx)` a request starts. -/
structure UpsertCall where
  items : List TorrentInfoInsertData
  category : String
  flag : Bool
  deriving DecidableEq, Repr

/-- What `getCatalogItems` leaves behind: the returned items, the cache, the remote
state, the page requests of either kind and the background upsert, if one was started. -/
structure Fetched (σ : Type) where
  items : List CachedCatalogItem
  cache : Cache
  remote : σ
  news : List (Exchange NewsListItem) := []
  magnets : List (Exchange MagnetListItem) := []
  upsert : Option UpsertCall := none

/-- The function `getUsenetCatalogItems`. -/
def getUsenetCatalogItems {σ : Type} (deps : Deps) (s : Store σ)
    (storeToken clientIp idPrefix : String) (cache : Cache) (remote : σ) : Fetched σ :=
  let cacheKey := getCatalogCacheKey idPrefix storeToken
  match cache.Get cacheKey with
  | some items => { items := items, cache := cache, remote := remote }
  | none =>
    let r := fetchLoop s.ListNews storeToken clientIp (appendNews deps idPrefix) 0 true []
      remote []
    { items := r.acc, cache := cache.Add cacheKey r.acc, remote := r.remote, news := r.trace }

/-- The function `getCatalogItems`. -/
def getCatalogItems {σ : Type} (deps : Deps) (s : Store σ)
    (storeToken clientIp idPrefix : String) (isUsenet : Bool) (cache : Cache) (remote : σ) :
    Fetched σ :=
  if isUsenet then getUsenetCatalogItems deps s storeToken clientIp idPrefix cache remote
  else
    let cacheKey := getCatalogCacheKey idPrefix storeToken
    match cache.Get cacheKey with
    | some items => { items := items, cache := cache, remote := remote }
    | none =>
      let tInfoSource := s.Code
      let r := fetchLoop s.ListMagnets storeToken clientIp
        (appendMagnet deps idPrefix tInfoSource) 0 true ([], []) remote []
      { items := r.acc.1, cache := cache.Add cacheKey r.acc.1, remote := r.remote
        magnets := r.trace
        upsert := some ⟨r.acc.2, "", s.Code != deps.StoreCodeRealDebrid⟩ }

/-! ## The search filter of `handleCatalog` -/

/-- The function `strings.ToLower`, rune by rune. -/
def toLower (deps : Deps) (s : String) : List Char :=
  s.data.map deps.ToLower

/-- The class `\s` of Go regular expressions: tab, line feed, form feed, carriage return
and space. -/
def isSpace (c : Char) : Bool :=
  c = '\t' || c = '\n' || c = '\x0c' || c = '\r' || c = ' '

/-- The call `whitespacesRegex.Split(s, -1)` for `whitespacesRegex = \s+`: the pieces of `s`
between the maximal runs of whitespace, an empty piece standing before a leading run and
after a trailing run; the empty text gives one empty piece. -/
def splitWhitespace : List Char → List (List Char)
  | [] => [[]]
  | c :: cs =>
    if isSpace c then
      match cs with
      | [] => [] :: splitWhitespace cs
      | d :: _ => if isSpace d then splitWhitespace cs else [] :: splitWhitespace cs
    else
      match splitWhitespace cs with
      | [] => [[c]]
      | p :: ps => (c :: p) :: ps

/-- The regular expressions `handleCatalog` can build, as a sequence of nodes. -/
inductive ReNode where
  /-- A literal rune. -/
  | lit (c : Char)
  /-- The node `.*`: any run of runes other than line feed. -/
  | dotStar
  deriving DecidableEq, Repr

/-- The expression `regexp.QuoteMeta(s)` denotes: the text `s`, literally. -/
def quoteMeta (s : List Char) : List ReNode :=
  s.map ReNode.lit

/-- The expression `regexp.Compile(strings.Join(parts, ".*"))` returns for quoted parts;
a join of quoted texts is a well-formed pattern, so the error branch of lines 234 to 237
is not taken. -/
def compileJoined (parts : List (List ReNode)) : List ReNode :=
  List.intercalate [ReNode.dotStar] parts

/-- Whether `.` matches the rune: every rune but line feed. -/
def dotMatches (c : Char) : Bool :=
  c != '\n'

/-- Whether `p` holds of the text after some prefix that `.*` can consume. -/
def afterDotStar (p : List Char → Bool) : List Char → Bool
  | [] => p []
  | c :: cs => p (c :: cs) || (dotMatches c && afterDotStar p cs)

/-- Whether the expression matches a prefix of the text. -/
def matchPrefix : List ReNode → List Char → Bool
  | [], _ => true
  | ReNode.lit c :: re, s =>
    match s with
    | [] => false
    | x :: xs => x == c && matchPrefix re xs
  | ReNode.dotStar :: re, s => afterDotStar (matchPrefix re) s

/-- The method `Regexp.MatchString`: whether the expression matches somewhere in the text. -/
def MatchString (re : List ReNode) : List Char → Bool
  | [] => matchPrefix re []
  | c :: cs => matchPrefix re (c :: cs) || MatchString re cs

/-- Lines 228 to 233 of `handleCatalog`: the expression built from the search text. -/
def searchRegex (deps : Deps) (search : String) : List ReNode :=
  let query := toLower deps search
  let parts := splitWhitespace query
  let parts := parts.map quoteMeta
  compileJoined parts

/-- Lines 238 to 245 of `handleCatalog`: the items whose lowered name the expression
matches, appended one by one to a fresh slice. -/
def filterItems (deps : Deps) (regex : List ReNode) (items : List CachedCatalogItem) :
    List CachedCatalogItem :=
  items.foldl
    (fun filteredItems item =>
      if MatchString regex (toLower deps item.toMetaPreview.Name) then filteredItems ++ [item]
      else filteredItems)
    []

/-- Lines 228 to 245 of `handleCatalog`: the body of `if extra.Search != ""`. -/
def searchItems (deps : Deps) (search : String) (items : List CachedCatalogItem) :
    List CachedCatalogItem :=
  filterItems deps (searchRegex deps search) items

/-! ## The enrichment step and `handleCatalog` -/

/-- The first result of `strings.Cut(s, ":")`: the text before the first colon, or all of
`s` when it has none. -/
def cutColon (s : String) : String :=
  String.mk (s.data.takeWhile (fun c => c != ':'))

/-- The result of `torrent_stream.GetStremIdByHashes`: the identifier of each resolved
hash (the empty string for the others), or the error. -/
abbrev StremIdLookup := Except String (String → String)

/-- Modelled from the spec: the method `Get` of the value `GetStremIdByHashes` returns,
whose package is not among the source files. A failed lookup is treated as no
identifiers resolved, so every hash yields the empty string. -/
def StremIdLookup.Get (stremIdByHash : StremIdLookup) (hash : String) : String :=
  match stremIdByHash with
  | Except.ok m => m hash
  | Except.error _ => ""

/-- Lines 265 to 269 of `handleCatalog`: the item after the body of the last loop. -/
def enrichItem (deps : Deps) (stremIdByHash : StremIdLookup) (item : CachedCatalogItem) :
    CachedCatalogItem :=
  let stremId := stremIdByHash.Get item.hash
  if stremId ≠ "" then
    let stremId := cutColon stremId
    { item with toMetaPreview := { item.toMetaPreview with Poster := deps.getPosterUrl stremId } }
  else item

/-- Lines 264 to 271 of `handleCatalog`: the loop writes each item in place and copies its
`MetaPreview` to `res.Metas`; the result is the items after the loop and `res.Metas`. -/
def enrichLoop (deps : Deps) (stremIdByHash : StremIdLookup) :
    List CachedCatalogItem → List CachedCatalogItem × List MetaPreview
  | [] => ([], [])
  | item :: rest =>
    let item := enrichItem deps stremIdByHash item
    let r := enrichLoop deps stremIdByHash rest
    (item :: r.1, item.toMetaPreview :: r.2)

/-- How a run of `handleCatalog` ends: a response was sent, or the handler panicked. -/
inductive Reply where
  /-- The call `SendResponse(w, r, status, res)` with `res.Metas = metas`. -/
  | sent (status : Nat) (metas : List MetaPreview)
  /-- A run-time panic. -/
  | panic (msg : String)
  deriving DecidableEq, Repr

/-- Lines 252 to 273 of `handleCatalog` on the page `items`: the page after the loop and
the reply. The error of the lookup is logged and not looked at again. -/
def enrichAndSend (deps : Deps) (lookup : List String → StremIdLookup)
    (items : List CachedCatalogItem) : List CachedCatalogItem × Reply :=
  let hashes := items.map (fun item => item.hash)
  let stremIdByHash := lookup hashes
  let r := enrichLoop deps stremIdByHash items
  (r.1, Reply.sent 200 r.2)

/-- The function `getStoreActionMetaPreview`. -/
def getStoreActionMetaPreview (deps : Deps) (storeCode : String) : MetaPreview :=
  { Id := deps.getStoreActionId storeCode
    Type_ := deps.ContentTypeOther
    Name := "StremThru Store Actions" }

/-- The array `arr` after the elements from index `lo` on were replaced by `new`. -/
def overwrite {α : Type} (arr : List α) (lo : Nat) (new : List α) : List α :=
  arr.take lo ++ new ++ arr.drop (lo + new.length)

/-- What a run of `handleCatalog` leaves behind. -/
structure Handled (σ : Type) where
  /-- The reply. -/
  reply : Reply
  /-- The cache after `getCatalogItems`. -/
  cache : Cache
  /-- The remote state. -/
  remote : σ
  /-- The content, when the handler ends, of the slice that `getCatalogItems` returned:
  the one `catalogCache.Get` produced or `catalogCache.Add` was given. It is empty when
  the handler replied before calling `getCatalogItems`. -/
  cached : List CachedCatalogItem

/-- The function `handleCatalog` from line 211 on, for a request that passed the checks of
lines 174 to 209. The variable `items` of line 225 is the slice the cache holds; the
search filter replaces it by a slice of copies, line 250 narrows it without copying, and
the loop of line 264 writes through it. -/
def handleCatalog {σ : Type} (deps : Deps) (s : Store σ)
    (storeCode storeToken clientIp idPrefix : String) (isUsenet : Bool)
    (extraParams : String) (lookup : List String → StremIdLookup)
    (cache : Cache) (remote : σ) : Handled σ :=
  let extra := getExtra deps extraParams
  if extra.Genre = deps.CatalogGenreStremThru then
    { reply := Reply.sent 200 [getStoreActionMetaPreview deps storeCode]
      cache := cache, remote := remote, cached := [] }
  else
    let f := getCatalogItems deps s storeToken clientIp idPrefix isUsenet cache remote
    let copied := decide (extra.Search ≠ "")
    let items := if copied then searchItems deps extra.Search f.items else f.items
    match pageItems items extra.Skip with
    | Except.error msg =>
      { reply := Reply.panic msg, cache := f.cache, remote := f.remote, cached := f.items }
    | Except.ok page =>
      let r := enrichAndSend deps lookup page
      let lo := (min extra.Skip (items.length : Int)).toNat
      { reply := r.2, cache := f.cache, remote := f.remote
        cached := if copied then f.items else overwrite f.items lo r.1 }

/-! ## Vocabulary of the statements -/

/-- Whether the page request was answered with an error. -/
def Exchange.failed {α : Type} (x : Exchange α) : Bool :=
  match x.response with
  | Except.error _ => true
  | Except.ok _ => false

/-- The pages of items the answered requests of a trace returned, oldest first. -/
def pagesOf {α : Type} (trace : List (Exchange α)) : List (List α) :=
  trace.filterMap (fun x =>
    match x.response with
    | Except.ok res => some res.Items
    | Except.error _ => none)

/-- The shape of the requests a fetch loop issues from `offset` on: each asks for
`fetch_list_limit` items at an offset below `max_fetch_list_items`, the offsets go up by
`fetch_list_limit`, and only the last request may have failed. -/
def TraceFrom {α : Type} (storeToken clientIp : String) : Nat → List (Exchange α) → Prop
  | _, [] => True
  | offset, x :: xs =>
    x.params =
      { Limit := fetch_list_limit, Offset := offset, ClientIP := clientIp, APIKey := storeToken } ∧
    offset < max_fetch_list_items ∧ (xs ≠ [] → Exchange.failed x = false) ∧
    TraceFrom storeToken clientIp (offset + fetch_list_limit) xs

/-- The text has no line feed. -/
def NoLineFeed (g : List Char) : Prop :=
  ∀ c ∈ g, c ≠ '\n'

/-- The text is made of the tokens in order, each after a run of runes that `gap` allows,
and of any text after the last token. -/
def Gapped (gap : List Char → Prop) : List (List Char) → List Char → Prop
  | [], _ => True
  | t :: ts, s => ∃ g rest, s = g ++ t ++ rest ∧ gap g ∧ Gapped gap ts rest

/-- The text contains the tokens in order, anywhere: any text, the first token, and then
each further token after a run of runes that `gap` allows. -/
def ContainsInOrder (gap : List Char → Prop) : List (List Char) → List Char → Prop
  | [], _ => True
  | t :: ts, s => ∃ pre rest, s = pre ++ t ++ rest ∧ Gapped gap ts rest

/-- The whitespace-separated tokens of a text: its non-empty pieces between whitespace
runes. -/
def tokens (s : List Char) : List (List Char) :=
  (s.splitOnP isSpace).filter (fun t => !t.isEmpty)

/-! ## Reference instances used in the examples -/

/-- The restriction of `unicode.ToLower` to ASCII; other runes are left alone. -/
def asciiToLower (c : Char) : Char :=
  if 'A' ≤ c ∧ c ≤ 'Z' then Char.ofNat (c.toNat + 32) else c

/-- Value of a hexadecimal digit rune, if it is one. -/
def hexVal (c : Char) : Option Nat :=
  if '0' ≤ c ∧ c ≤ '9' then some (c.toNat - '0'.toNat)
  else if 'a' ≤ c ∧ c ≤ 'f' then some (c.toNat - 'a'.toNat + 10)
  else if 'A' ≤ c ∧ c ≤ 'F' then some (c.toNat - 'A'.toNat + 10)
  else none

/-- The function `url.QueryUnescape` on ASCII text: `+` is a space and `%XY` the rune
with that code; a `%` without two hexadecimal digits after it is an error. -/
def queryUnescape : List Char → Option (List Char)
  | [] => some []
  | c :: cs =>
    if c = '%' then
      match cs with
      | a :: b :: rest =>
        match hexVal a, hexVal b, queryUnescape rest with
        | some x, some y, some r => some (Char.ofNat (16 * x + y) :: r)
        | _, _, _ => none
      | _ => none
    else
      match queryUnescape cs with
      | some r => some ((if c = '+' then ' ' else c) :: r)
      | none => none

/-- Appends a value to the values of a key, as `m[key] = append(m[key], value)`. -/
def Values.add (m : Values) (key value : String) : Values :=
  match m with
  | [] => [(key, [value])]
  | (k, vs) :: rest => if k = key then (k, vs ++ [value]) :: rest else (k, vs) :: Values.add rest key value

/-- One `key=value` setting of a query: the loop body of `url.parseQuery`. -/
def parseSetting (acc : Except String Values) (setting : List Char) : Except String Values :=
  if setting.contains ';' then Except.error "invalid semicolon separator in query"
  else if setting = [] then acc
  else
    let key := setting.takeWhile (fun c => c != '=')
    let value := (setting.dropWhile (fun c => c != '=')).drop 1
    match queryUnescape key, queryUnescape value, acc with
    | some k, some v, Except.ok m => Except.ok (m.add (String.mk k) (String.mk v))
    | some _, some _, Except.error e => Except.error e
    | _, _, _ => Except.error "invalid URL escape"

/-- The function `url.ParseQuery` on ASCII text, the values being kept only when no
setting is in error. -/
def urlParseQuery (query : String) : Except String Values :=
  (query.data.splitOn '&').foldl parseSetting (Except.ok [])

/-- Dependencies for the worked examples: ASCII lowering, the ASCII query parser, and
constants and formatters standing for those of the repository. -/
def refDeps : Deps where
  ToLower := asciiToLower
  ParseQuery := urlParseQuery
  ContentTypeOther := "other"
  MetaPosterShapePoster := "poster"
  MagnetStatusDownloaded := "downloaded"
  CatalogGenreStremThru := "StremThru"
  StoreCodeRealDebrid := "rd"
  getMetaPreviewDescriptionForTorrent := fun hash name => "[ 🧲 " ++ hash ++ " ] " ++ name
  getMetaPreviewDescriptionForUsenet := fun hash name largest =>
    "[ 📰 " ++ hash ++ " ] " ++ name ++ " " ++ largest
  getStoreActionId := fun code => "st:store:action:" ++ code
  getPosterUrl := fun stremId => "https://images.metahub.space/poster/small/" ++ stremId ++ "/img"

/-- A catalog item with the given name. -/
def named (name : String) : CachedCatalogItem :=
  { toMetaPreview := { Name := name } }

/-- A store whose magnet listing holds the given items on its first page. -/
def onePageStore (items : List MagnetListItem) : Store Unit where
  Code := "ad"
  ListMagnets := fun st p =>
    (if p.Offset = 0 then Except.ok ⟨items, items.length⟩ else Except.error "no such page", st)
  ListNews := fun st _ => (Except.error "not a usenet store", st)

/-- A cached item with a name and a hash, as the fetch loops leave it: no poster. -/
def cachedItem (name hash : String) : CachedCatalogItem :=
  { toMetaPreview := { Name := name }, hash := hash }

/-- A cache with one live entry, for the account `tok` of the store `ad`. -/
def oneEntryCache (items : List CachedCatalogItem) : Cache :=
  [(getCatalogCacheKey "st:store:ad:" "tok", items)]

/-- A request to `handleCatalog` for the account `tok` of the store `ad`, the cache
holding `items`. -/
def runCatalog (extraParams : String) (lookup : List String → StremIdLookup)
    (items : List CachedCatalogItem) : Handled Unit :=
  handleCatalog refDeps (onePageStore []) "ad" "tok" "1.2.3.4" "st:store:ad:" false extraParams
    lookup (oneEntryCache items) ()

/-- A downloaded magnet of the remote listing. -/
def sampleMagnet : MagnetListItem :=
  { Id := "m", Name := "Movie", Hash := "h", Size := 1, Status := "downloaded" }

/-- A store with 2000 magnets whose listing gives `page` first and fails from the second
page on. -/
def failingStore (page : List MagnetListItem) : Store Unit where
  Code := "ad"
  ListMagnets := fun st p =>
    (if p.Offset = 0 then Except.ok ⟨page, 2000⟩ else Except.error "timeout", st)
  ListNews := fun st _ => (Except.error "not a usenet store", st)

/-- A full first page: 500 downloaded magnets. -/
def fullPage : List MagnetListItem :=
  List.replicate 500 sampleMagnet

/-! ## The models of the library functions on sample inputs -/

/-- The model of `strconv.Atoi` on signed, out-of-range and malformed texts. -/
theorem Atoi_samples :
    Atoi "-1" = some (-1) ∧ Atoi "+7" = some 7 ∧ Atoi "007" = some 7 ∧
    Atoi "9223372036854775807" = some maxInt ∧ Atoi "-9223372036854775808" = some minInt ∧
    Atoi "9223372036854775808" = none ∧ Atoi "" = none ∧ Atoi "+" = none ∧
    Atoi "12a" = none ∧ Atoi " 1" = none := by
  decide

/-- The model of `whitespacesRegex.Split` on texts with leading, doubled and trailing
whitespace. -/
theorem splitWhitespace_samples :
    splitWhitespace "the matrix".data = ["the".data, "matrix".data] ∧
    splitWhitespace " a \t b ".data = ["".data, "a".data, "b".data, "".data] ∧
    splitWhitespace " ".data = ["".data, "".data] ∧
    splitWhitespace "".data = ["".data] := by
  decide

/-- The model of `url.ParseQuery` and `getExtra` on sample extra parameters. -/
theorem getExtra_samples :
    getExtra refDeps "skip=200" = { Skip := 200 } ∧
    getExtra refDeps "search=the%20matrix&skip=100" = { Search := "the matrix", Skip := 100 } ∧
    getExtra refDeps "genre=Action&skip=7&skip=8" = { Skip := 7, Genre := "Action" } ∧
    getExtra refDeps "search=a;skip=1" = {} ∧
    getExtra refDeps "" = {} := by
  decide

/-! ## The cache key -/

/-- C6, as amended: for two pairs whose id prefixes have the same length, in particular
for one id prefix, `getCatalogCacheKey` gives one key exactly when the pairs are equal;
so two account tokens under one prefix never share a cache key. -/
theorem getCatalogCacheKey_eq_iff (p₁ t₁ p₂ t₂ : String) (hlen : p₁.length = p₂.length) :
    getCatalogCacheKey p₁ t₁ = getCatalogCacheKey p₂ t₂ ↔ p₁ = p₂ ∧ t₁ = t₂ := by
  constructor
  · intro h
    have hd : p₁.data ++ t₁.data = p₂.data ++ t₂.data := by
      have := congrArg String.data h
      simpa [getCatalogCacheKey, String.data_append] using this
    have hl : p₁.data.length = p₂.data.length := by
      cases p₁
      cases p₂
      exact hlen
    obtain ⟨h1, h2⟩ := List.append_inj hd hl
    exact ⟨String.ext h1, String.ext h2⟩
  · rintro ⟨rfl, rfl⟩
    rfl

/-- Witness of C6: the tokens `tok1` and `tok2` under the prefix `st:store:ad:`. -/
theorem getCatalogCacheKey_eq_iff_witness :
    getCatalogCacheKey "st:store:ad:" "tok1" ≠ getCatalogCacheKey "st:store:ad:" "tok2" := by
  intro h
  have := (getCatalogCacheKey_eq_iff "st:store:ad:" "tok1" "st:store:ad:" "tok2" rfl).1 h
  exact absurd this.2 (by decide)

/-- C6, counterexample: the account tokens `c` and `bc` differ, and yet the pairs
`(ab, c)` and `(a, bc)` get the same cache key. -/
theorem getCatalogCacheKey_collision :
    ("c" : String) ≠ "bc" ∧ getCatalogCacheKey "ab" "c" = getCatalogCacheKey "a" "bc" := by
  decide

/-! ## `getExtra` -/

/-- C8: `getExtra` is a total function of the extra-parameters text. An empty text and a
text `url.ParseQuery` rejects give the all-default directives; a text that parses gives
`Search` and `Genre` as the values of `search` and `genre`, with `Skip` the integer
`strconv.Atoi` reads from the value of `skip`, and the default 0 when it reads none. -/
theorem getExtra_cases (deps : Deps) (extraParams : String) :
    (extraParams = "" → getExtra deps extraParams = {}) ∧
    (∀ e, deps.ParseQuery extraParams = Except.error e → getExtra deps extraParams = {}) ∧
    (∀ q, extraParams ≠ "" → deps.ParseQuery extraParams = Except.ok q →
      Atoi (q.Get "skip") = none →
      getExtra deps extraParams = { Search := q.Get "search", Skip := 0, Genre := q.Get "genre" }) ∧
    (∀ q n, extraParams ≠ "" → deps.ParseQuery extraParams = Except.ok q →
      Atoi (q.Get "skip") = some n →
      getExtra deps extraParams = { Search := q.Get "search", Skip := n, Genre := q.Get "genre" }) := by
  refine ⟨?_, ?_, ?_, ?_⟩
  · intro h
    simp [getExtra, h]
  · intro e h
    simp [getExtra, h]
  · intro q hne hq hskip
    unfold getExtra
    simp only [hne, hq, hskip, ne_eq, not_false_eq_true, if_true]
    by_cases h1 : q.Get "search" = "" <;> by_cases h2 : q.Get "genre" = "" <;>
      by_cases h3 : q.Get "skip" = "" <;>
      simp only [h1, h2, h3, not_true_eq_false, not_false_eq_true, if_true, if_false]
  · intro q n hne hq hskip
    have h3 : q.Get "skip" ≠ "" := by
      intro h
      have hnone : Atoi "" = none := by decide
      rw [h, hnone] at hskip
      cases hskip
    unfold getExtra
    simp only [hne, hq, hskip, h3, ne_eq, not_false_eq_true, if_true]
    by_cases h1 : q.Get "search" = "" <;> by_cases h2 : q.Get "genre" = "" <;>
      simp only [h1, h2, not_true_eq_false, not_false_eq_true, if_true, if_false]

/-- Witness of C8: a text with a broken escape, and a text whose `skip` is no integer. -/
theorem getExtra_cases_witness :
    getExtra refDeps "search=a&skip=%zz" = {} ∧
    getExtra refDeps "search=the+matrix&skip=abc&genre=x" =
      { Search := "the matrix", Skip := 0, Genre := "x" } :=
  ⟨(getExtra_cases refDeps "search=a&skip=%zz").2.1 "invalid URL escape" (by decide),
   (getExtra_cases refDeps "search=the+matrix&skip=abc&genre=x").2.2.1
     [("search", ["the matrix"]), ("skip", ["abc"]), ("genre", ["x"])]
     (by decide) (by decide) (by decide)⟩

/-! ## The fetch loops -/

theorem foldl_appendNews (deps : Deps) (idPrefix : String) (news : List NewsListItem)
    (items : List CachedCatalogItem) :
    news.foldl (appendNews deps idPrefix) items =
      items ++ (news.filter (fun it => decide (it.Status = deps.MagnetStatusDownloaded))).map
        (fun it =>
          { toMetaPreview :=
              { Id := idPrefix ++ it.Id
                Type_ := deps.ContentTypeOther
                Name := it.LargestFileName
                Description :=
                  deps.getMetaPreviewDescriptionForUsenet it.Hash it.Name it.LargestFileName
                PosterShape := deps.MetaPosterShapePoster }
            hash := it.Hash }) := by
  induction news generalizing items with
  | nil => simp
  | cons it rest ih =>
    rw [List.foldl_cons, ih]
    by_cases h : it.Status = deps.MagnetStatusDownloaded <;> simp [appendNews, h]

theorem foldl_appendMagnet (deps : Deps) (idPrefix tInfoSource : String)
    (magnets : List MagnetListItem)
    (acc : List CachedCatalogItem × List TorrentInfoInsertData) :
    magnets.foldl (appendMagnet deps idPrefix tInfoSource) acc =
      (acc.1 ++ (magnets.filter (fun it => decide (it.Status = deps.MagnetStatusDownloaded))).map
        (fun it =>
          { toMetaPreview :=
              { Id := idPrefix ++ it.Id
                Type_ := deps.ContentTypeOther
                Name := it.Name
                Description := deps.getMetaPreviewDescriptionForTorrent it.Hash it.Name
                PosterShape := deps.MetaPosterShapePoster }
            hash := it.Hash }),
       acc.2 ++ magnets.map (fun it =>
          { Hash := it.Hash, TorrentTitle := it.Name, Size := it.Size, Source := tInfoSource })) := by
  induction magnets generalizing acc with
  | nil => simp
  | cons it rest ih =>
    rw [List.foldl_cons, ih]
    by_cases h : it.Status = deps.MagnetStatusDownloaded <;> simp [appendMagnet, h]

theorem fetchLoop_inv {σ α β : Type} (list : σ → ListParams → Except String (ListData α) × σ)
    (storeToken clientIp : String) (step : β → α → β) (n : Nat) :
    ∀ (offset : Nat) (hasMore : Bool) (acc : β) (remote : σ) (trace : List (Exchange α)),
      max_fetch_list_items - offset ≤ n →
      ∃ new, (fetchLoop list storeToken clientIp step offset hasMore acc remote trace).trace =
          trace ++ new ∧
        TraceFrom storeToken clientIp offset new ∧
        (fetchLoop list storeToken clientIp step offset hasMore acc remote trace).acc =
          (pagesOf new).foldl (fun a page => page.foldl step a) acc := by
  induction n with
  | zero =>
    intro offset hasMore acc remote trace hn
    rw [fetchLoop]
    have : ¬ (hasMore = true ∧ offset < max_fetch_list_items) := by
      intro h
      omega
    rw [dif_neg this]
    exact ⟨[], by simp, trivial, rfl⟩
  | succ n ih =>
    intro offset hasMore acc remote trace hn
    rw [fetchLoop]
    by_cases hc : hasMore = true ∧ offset < max_fetch_list_items
    · rw [dif_pos hc]
      rcases hl : list remote (ListParams.mk fetch_list_limit offset clientIp storeToken)
        with ⟨res | res, remote'⟩
      · simp only [hl]
        refine ⟨[⟨_, Except.error res⟩], rfl, ⟨rfl, hc.2, by simp, trivial⟩, rfl⟩
      · simp only [hl]
        obtain ⟨new, h1, h2, h3⟩ := ih (offset + fetch_list_limit)
          (decide (res.Items.length = fetch_list_limit) &&
            decide (((offset + fetch_list_limit : Nat) : Int) < res.TotalItems))
          (res.Items.foldl step acc) remote'
          (trace ++ [Exchange.mk (ListParams.mk fetch_list_limit offset clientIp storeToken)
            (Except.ok res)])
          (by simp only [fetch_list_limit]; omega)
        refine ⟨⟨_, Except.ok res⟩ :: new, ?_, ⟨rfl, hc.2, fun _ => rfl, h2⟩, ?_⟩
        · rw [h1]; simp
        · rw [h3]; simp [pagesOf]
    · rw [dif_neg hc]
      exact ⟨[], by simp, trivial, rfl⟩

theorem traceFrom_offsets {α : Type} (storeToken clientIp : String) (new : List (Exchange α))
    (h : TraceFrom storeToken clientIp 0 new) :
    new.map (fun x => x.params.Offset) <+: [0, 500, 1000, 1500] ∧
    ∀ x ∈ new, x.params.Limit = 500 := by
  rcases new with _ | ⟨x1, _ | ⟨x2, _ | ⟨x3, _ | ⟨x4, _ | ⟨x5, rest⟩⟩⟩⟩⟩
  · simp
  · simp only [TraceFrom, fetch_list_limit] at h
    simp [h.1, List.prefix_iff_eq_take]
  · simp only [TraceFrom, fetch_list_limit] at h
    simp [h.1, h.2.2.2.1, List.prefix_iff_eq_take]
  · simp only [TraceFrom, fetch_list_limit] at h
    simp [h.1, h.2.2.2.1, h.2.2.2.2.2.2.1, List.prefix_iff_eq_take]
  · simp only [TraceFrom, fetch_list_limit] at h
    simp [h.1, h.2.2.2.1, h.2.2.2.2.2.2.1, h.2.2.2.2.2.2.2.2.2.1]
  · simp only [TraceFrom, fetch_list_limit, max_fetch_list_items] at h
    omega

theorem traceFrom_failed_last {α : Type} (storeToken clientIp : String)
    (pre : List (Exchange α)) (x : Exchange α) (post : List (Exchange α)) :
    ∀ offset, TraceFrom storeToken clientIp offset (pre ++ x :: post) →
      Exchange.failed x = true → post = [] := by
  induction pre with
  | nil =>
    intro offset h hx
    by_contra hpost
    simp only [List.nil_append, TraceFrom] at h
    have := h.2.2.1 hpost
    rw [hx] at this
    cases this
  | cons y pre ih =>
    intro offset h hx
    simp only [List.cons_append, TraceFrom] at h
    exact ih _ h.2.2.2 hx

theorem pagesOf_append_failed {α : Type} (pre : List (Exchange α)) (x : Exchange α)
    (hx : Exchange.failed x = true) : pagesOf (pre ++ [x]) = pagesOf pre := by
  unfold Exchange.failed at hx
  unfold pagesOf
  rw [List.filterMap_append]
  cases hr : x.response with
  | error e => simp [hr]
  | ok res => simp [hr] at hx

theorem fetchLoop_error {σ α β : Type}
    (list : σ → ListParams → Except String (ListData α) × σ)
    (storeToken clientIp : String) (step : β → α → β) (offset : Nat) (acc : β) (remote : σ)
    (trace : List (Exchange α)) (err : String) (remote' : σ)
    (hoff : offset < max_fetch_list_items)
    (hl : list remote (ListParams.mk fetch_list_limit offset clientIp storeToken) =
      (Except.error err, remote')) :
    fetchLoop list storeToken clientIp step offset true acc remote trace =
      { acc := acc, remote := remote'
        trace := trace ++
          [Exchange.mk (ListParams.mk fetch_list_limit offset clientIp storeToken)
            (Except.error err)] } := by
  rw [fetchLoop, dif_pos ⟨rfl, hoff⟩]
  simp only [hl]

theorem fetchLoop_ok {σ α β : Type}
    (list : σ → ListParams → Except String (ListData α) × σ)
    (storeToken clientIp : String) (step : β → α → β) (offset : Nat) (acc : β) (remote : σ)
    (trace : List (Exchange α)) (res : ListData α) (remote' : σ)
    (hoff : offset < max_fetch_list_items)
    (hl : list remote (ListParams.mk fetch_list_limit offset clientIp storeToken) =
      (Except.ok res, remote')) :
    fetchLoop list storeToken clientIp step offset true acc remote trace =
      fetchLoop list storeToken clientIp step (offset + fetch_list_limit)
        (decide (res.Items.length = fetch_list_limit) &&
          decide (((offset + fetch_list_limit : Nat) : Int) < res.TotalItems))
        (res.Items.foldl step acc) remote'
        (trace ++
          [Exchange.mk (ListParams.mk fetch_list_limit offset clientIp storeToken)
            (Except.ok res)]) := by
  rw [fetchLoop, dif_pos ⟨rfl, hoff⟩]
  simp only [hl]

theorem getCatalogItems_second_page_fails {σ : Type} (deps : Deps) (s : Store σ)
    (storeToken clientIp idPrefix : String) (cache : Cache) (remote : σ)
    (page : List MagnetListItem) (total : Int) (r1 r2 : σ) (err : String)
    (hmiss : cache.Get (getCatalogCacheKey idPrefix storeToken) = none)
    (h0 : s.ListMagnets remote (ListParams.mk fetch_list_limit 0 clientIp storeToken) =
      (Except.ok ⟨page, total⟩, r1))
    (hlen : page.length = fetch_list_limit) (htotal : ((0 + fetch_list_limit : Nat) : Int) < total)
    (h1 : s.ListMagnets r1 (ListParams.mk fetch_list_limit (0 + fetch_list_limit) clientIp storeToken) =
      (Except.error err, r2)) :
    getCatalogItems deps s storeToken clientIp idPrefix false cache remote =
      { items := (page.foldl (appendMagnet deps idPrefix s.Code) ([], [])).1
        cache := cache.Add (getCatalogCacheKey idPrefix storeToken)
          (page.foldl (appendMagnet deps idPrefix s.Code) ([], [])).1
        remote := r2
        magnets :=
          [Exchange.mk (ListParams.mk fetch_list_limit 0 clientIp storeToken)
             (Except.ok ⟨page, total⟩),
           Exchange.mk (ListParams.mk fetch_list_limit (0 + fetch_list_limit) clientIp storeToken)
             (Except.error err)]
        upsert := some ⟨(page.foldl (appendMagnet deps idPrefix s.Code) ([], [])).2, "",
          s.Code != deps.StoreCodeRealDebrid⟩ } := by
  have hmore : (decide (page.length = fetch_list_limit) &&
      decide (((0 + fetch_list_limit : Nat) : Int) < total)) = true := by
    rw [decide_eq_true hlen, decide_eq_true htotal]
    rfl
  have hloop := fetchLoop_ok s.ListMagnets storeToken clientIp
    (appendMagnet deps idPrefix s.Code) 0 ([], []) remote [] ⟨page, total⟩ r1 (by decide) h0
  rw [hmore, fetchLoop_error s.ListMagnets storeToken clientIp
    (appendMagnet deps idPrefix s.Code) (0 + fetch_list_limit) _ r1 _ err r2 (by decide) h1] at hloop
  simp only [getCatalogItems, hmiss, Bool.false_eq_true, if_false, hloop, List.nil_append,
    List.cons_append]

theorem Cache.get_add (c : Cache) (key : String) (items : List CachedCatalogItem) :
    (c.Add key items).Get key = some items := by
  simp [Cache.Get, Cache.Add]

theorem failingStore_first (page : List MagnetListItem) :
    (failingStore page).ListMagnets () (ListParams.mk fetch_list_limit 0 "1.2.3.4" "tok") =
      (Except.ok ⟨page, 2000⟩, ()) := rfl

theorem failingStore_second (page : List MagnetListItem) :
    (failingStore page).ListMagnets ()
      (ListParams.mk fetch_list_limit (0 + fetch_list_limit) "1.2.3.4" "tok") =
      (Except.error "timeout", ()) := rfl

theorem fullPage_length : fullPage.length = fetch_list_limit :=
  List.length_replicate 500 sampleMagnet

theorem fullPage_downloaded :
    ∀ x ∈ fullPage, decide (x.Status = refDeps.MagnetStatusDownloaded) = true := by
  intro x hx
  rw [List.eq_of_mem_replicate hx]
  decide

theorem firstPage_items_length (deps : Deps) (idPrefix tInfoSource : String) (p : ListParams)
    (page : List MagnetListItem) (total : Int)
    (hall : ∀ x ∈ page, decide (x.Status = deps.MagnetStatusDownloaded) = true) :
    ((pagesOf [Exchange.mk p (Except.ok ⟨page, total⟩)]).foldl
      (fun a page => page.foldl (appendMagnet deps idPrefix tInfoSource) a) ([], [])).1.length =
      page.length := by
  simp only [pagesOf, List.filterMap_cons, List.filterMap_nil, List.foldl_cons, List.foldl_nil]
  rw [foldl_appendMagnet, List.filter_eq_self.2 hall]
  simp

/-- C4: over one page of the remote listing, the inner loop of either fetch loop appends
to `items` the page's items whose status is `MagnetStatusDownloaded`, in the page's order,
each with `Id = idPrefix + item.Id` and `hash = item.Hash`; the other items add nothing. -/
theorem fetch_appends_downloaded (deps : Deps) (idPrefix tInfoSource : String)
    (items : List CachedCatalogItem) (tInfoItems : List TorrentInfoInsertData)
    (news : List NewsListItem) (magnets : List MagnetListItem) :
    news.foldl (appendNews deps idPrefix) items =
      items ++ (news.filter (fun it => decide (it.Status = deps.MagnetStatusDownloaded))).map
        (fun it =>
          { toMetaPreview :=
              { Id := idPrefix ++ it.Id
                Type_ := deps.ContentTypeOther
                Name := it.LargestFileName
                Description :=
                  deps.getMetaPreviewDescriptionForUsenet it.Hash it.Name it.LargestFileName
                PosterShape := deps.MetaPosterShapePoster }
            hash := it.Hash }) ∧
    (magnets.foldl (appendMagnet deps idPrefix tInfoSource) (items, tInfoItems)).1 =
      items ++ (magnets.filter (fun it => decide (it.Status = deps.MagnetStatusDownloaded))).map
        (fun it =>
          { toMetaPreview :=
              { Id := idPrefix ++ it.Id
                Type_ := deps.ContentTypeOther
                Name := it.Name
                Description := deps.getMetaPreviewDescriptionForTorrent it.Hash it.Name
                PosterShape := deps.MetaPosterShapePoster }
            hash := it.Hash }) := by
  refine ⟨foldl_appendNews deps idPrefix news items, ?_⟩
  rw [foldl_appendMagnet]

/-- C3: on a cache miss either fetch loop asks for pages of 500 items at offsets that
form a prefix of 0, 500, 1000, 1500, so for at most four pages; it writes to the cache
the very items it returns, which are those accumulated from the pages it received; and a
request that fails is the last one, the items being those of the pages before it. -/
theorem getCatalogItems_fetch {σ : Type} (deps : Deps) (s : Store σ)
    (storeToken clientIp idPrefix : String) (cache : Cache) (remote : σ)
    (hmiss : cache.Get (getCatalogCacheKey idPrefix storeToken) = none) :
    (let f := getCatalogItems deps s storeToken clientIp idPrefix true cache remote
     f.news.map (fun x => x.params.Offset) <+: [0, 500, 1000, 1500] ∧
     (∀ x ∈ f.news, x.params.Limit = 500) ∧
     f.cache = cache.Add (getCatalogCacheKey idPrefix storeToken) f.items ∧
     f.items = (pagesOf f.news).foldl (fun a page => page.foldl (appendNews deps idPrefix) a) [] ∧
     ∀ pre x post, f.news = pre ++ x :: post → Exchange.failed x = true →
       post = [] ∧
       f.items = (pagesOf pre).foldl (fun a page => page.foldl (appendNews deps idPrefix) a) []) ∧
    (let f := getCatalogItems deps s storeToken clientIp idPrefix false cache remote
     f.magnets.map (fun x => x.params.Offset) <+: [0, 500, 1000, 1500] ∧
     (∀ x ∈ f.magnets, x.params.Limit = 500) ∧
     f.cache = cache.Add (getCatalogCacheKey idPrefix storeToken) f.items ∧
     f.items = ((pagesOf f.magnets).foldl
       (fun a page => page.foldl (appendMagnet deps idPrefix s.Code) a) ([], [])).1 ∧
     ∀ pre x post, f.magnets = pre ++ x :: post → Exchange.failed x = true →
       post = [] ∧
       f.items = ((pagesOf pre).foldl
         (fun a page => page.foldl (appendMagnet deps idPrefix s.Code) a) ([], [])).1) := by
  constructor
  · obtain ⟨new, h1, h2, h3⟩ := fetchLoop_inv s.ListNews storeToken clientIp
      (appendNews deps idPrefix) max_fetch_list_items 0 true [] remote [] (by simp)
    simp only [List.nil_append] at h1
    simp only [getCatalogItems, getUsenetCatalogItems, hmiss, if_true]
    rw [h1, h3]
    refine ⟨(traceFrom_offsets _ _ _ h2).1, (traceFrom_offsets _ _ _ h2).2, ?_, ?_, ?_⟩
    · trivial
    · rfl
    intro pre x post hnew hx
    rw [hnew] at h2
    have hpost := traceFrom_failed_last _ _ pre x post 0 h2 hx
    subst hpost
    rw [hnew, pagesOf_append_failed pre x hx]
    exact ⟨rfl, rfl⟩
  · obtain ⟨new, h1, h2, h3⟩ := fetchLoop_inv s.ListMagnets storeToken clientIp
      (appendMagnet deps idPrefix s.Code) max_fetch_list_items 0 true ([], []) remote []
      (by simp)
    simp only [List.nil_append] at h1
    simp only [getCatalogItems, hmiss, Bool.false_eq_true, if_false]
    rw [h1, h3]
    refine ⟨(traceFrom_offsets _ _ _ h2).1, (traceFrom_offsets _ _ _ h2).2, ?_, ?_, ?_⟩
    · trivial
    · rfl
    intro pre x post hnew hx
    rw [hnew] at h2
    have hpost := traceFrom_failed_last _ _ pre x post 0 h2 hx
    subst hpost
    rw [hnew, pagesOf_append_failed pre x hx]
    exact ⟨rfl, rfl⟩

/-- Witness of C3: the first page holds 500 downloaded magnets and the second request
fails; the requests are those at offsets 0 and 500, and the 500 items are returned and
cached. -/
theorem getCatalogItems_fetch_witness :
    (let f := getCatalogItems refDeps (failingStore fullPage) "tok" "1.2.3.4" "st:store:ad:"
        false [] ()
     f.magnets.map (fun x => x.params.Offset) = [0, 500] ∧
     f.items.length = 500 ∧
     f.cache.Get (getCatalogCacheKey "st:store:ad:" "tok") = some f.items) := by
  have hmiss : Cache.Get [] (getCatalogCacheKey "st:store:ad:" "tok") = none := rfl
  have htotal : ((0 + fetch_list_limit : Nat) : Int) < 2000 := by decide
  have hrun := getCatalogItems_second_page_fails refDeps (failingStore fullPage) "tok"
    "1.2.3.4" "st:store:ad:" [] () fullPage 2000 () () "timeout" hmiss
    (failingStore_first fullPage) fullPage_length htotal (failingStore_second fullPage)
  have h := (getCatalogItems_fetch refDeps (failingStore fullPage) "tok" "1.2.3.4"
    "st:store:ad:" [] () hmiss).2
  rw [hrun] at h ⊢
  dsimp only at h ⊢
  obtain ⟨-, -, -, -, hfail⟩ := h
  have hitems := (hfail
    [Exchange.mk (ListParams.mk fetch_list_limit 0 "1.2.3.4" "tok") (Except.ok ⟨fullPage, 2000⟩)]
    (Exchange.mk (ListParams.mk fetch_list_limit (0 + fetch_list_limit) "1.2.3.4" "tok")
      (Except.error "timeout")) [] rfl rfl).2
  refine ⟨rfl, ?_, Cache.get_add _ _ _⟩
  rw [hitems]
  exact (firstPage_items_length refDeps _ _ _ _ _ fullPage_downloaded).trans fullPage_length

/-! ## The search filter -/

theorem compileJoined_nil : compileJoined [] = [] := rfl

theorem compileJoined_cons (a : List ReNode) (l : List (List ReNode)) :
    compileJoined (a :: l) = a ++ (l.map (fun b => ReNode.dotStar :: b)).flatten := by
  induction l generalizing a with
  | nil => simp [compileJoined, List.intercalate, List.intersperse]
  | cons b l ih =>
    have := ih b
    simp only [compileJoined, List.intercalate, List.intersperse, List.flatten_cons, List.map_cons] at this ⊢
    rw [this]
    simp

theorem afterDotStar_iff (p : List Char → Bool) (s : List Char) :
    afterDotStar p s = true ↔ ∃ g rest, s = g ++ rest ∧ NoLineFeed g ∧ p rest = true := by
  induction s with
  | nil =>
    simp only [afterDotStar]
    constructor
    · intro h
      exact ⟨[], [], rfl, by simp [NoLineFeed], h⟩
    · rintro ⟨g, rest, h, -, hp⟩
      have : g = [] ∧ rest = [] := by simpa using h.symm
      rw [this.2] at hp
      exact hp
  | cons c cs ih =>
    simp only [afterDotStar, Bool.or_eq_true, Bool.and_eq_true, ih]
    constructor
    · rintro (h | ⟨hc, g, rest, rfl, hg, hp⟩)
      · exact ⟨[], c :: cs, rfl, by simp [NoLineFeed], h⟩
      · refine ⟨c :: g, rest, rfl, ?_, hp⟩
        intro x hx
        rcases List.mem_cons.1 hx with rfl | hx
        · simpa [dotMatches] using hc
        · exact hg x hx
    · rintro ⟨g, rest, h, hg, hp⟩
      cases g with
      | nil =>
        left
        simp only [List.nil_append] at h
        rw [h]
        exact hp
      | cons x g =>
        right
        simp only [List.cons_append, List.cons.injEq] at h
        obtain ⟨rfl, rfl⟩ := h
        refine ⟨?_, g, rest, rfl, fun y hy => hg y (List.mem_cons_of_mem _ hy), hp⟩
        simpa [dotMatches] using hg c (List.mem_cons_self _ _)

theorem matchPrefix_quoteMeta (t : List Char) (re : List ReNode) (s : List Char) :
    matchPrefix (quoteMeta t ++ re) s = true ↔ ∃ rest, s = t ++ rest ∧ matchPrefix re rest = true := by
  induction t generalizing s with
  | nil => simp [quoteMeta]
  | cons c t ih =>
    cases s with
    | nil => simp [quoteMeta, matchPrefix]
    | cons x xs =>
      have ih' := ih xs
      simp only [quoteMeta] at ih'
      simp only [quoteMeta, List.map_cons, List.cons_append, matchPrefix, Bool.and_eq_true,
        beq_iff_eq, List.append_eq, ih', List.cons.injEq]
      constructor
      · rintro ⟨rfl, rest, rfl, h⟩
        exact ⟨rest, ⟨rfl, rfl⟩, h⟩
      · rintro ⟨rest, ⟨rfl, rfl⟩, h⟩
        exact ⟨rfl, rest, rfl, h⟩

theorem MatchString_iff (re : List ReNode) (s : List Char) :
    MatchString re s = true ↔ ∃ pre rest, s = pre ++ rest ∧ matchPrefix re rest = true := by
  induction s with
  | nil =>
    simp only [MatchString]
    constructor
    · intro h
      exact ⟨[], [], rfl, h⟩
    · rintro ⟨pre, rest, h, hp⟩
      have : pre = [] ∧ rest = [] := by simpa using h.symm
      rw [this.2] at hp
      exact hp
  | cons c cs ih =>
    simp only [MatchString, Bool.or_eq_true, ih]
    constructor
    · rintro (h | ⟨pre, rest, rfl, hp⟩)
      · exact ⟨[], c :: cs, rfl, h⟩
      · exact ⟨c :: pre, rest, rfl, hp⟩
    · rintro ⟨pre, rest, h, hp⟩
      cases pre with
      | nil =>
        left
        simp only [List.nil_append] at h
        rw [h]
        exact hp
      | cons x pre =>
        right
        simp only [List.cons_append, List.cons.injEq] at h
        obtain ⟨rfl, rfl⟩ := h
        exact ⟨pre, rest, rfl, hp⟩

theorem matchPrefix_gapped (ts : List (List Char)) (s : List Char) :
    matchPrefix ((ts.map (fun t => ReNode.dotStar :: quoteMeta t)).flatten) s = true ↔
      Gapped NoLineFeed ts s := by
  induction ts generalizing s with
  | nil => simp [matchPrefix, Gapped]
  | cons t ts ih =>
    simp only [List.map_cons, List.flatten_cons, List.cons_append, matchPrefix, afterDotStar_iff,
      List.append_eq, matchPrefix_quoteMeta, ih, Gapped]
    constructor
    · rintro ⟨g, rest, rfl, hg, rest', rfl, h⟩
      exact ⟨g, rest', by simp, hg, h⟩
    · rintro ⟨g, rest, rfl, hg, h⟩
      exact ⟨g, t ++ rest, by simp, hg, rest, rfl, h⟩

theorem MatchString_compileJoined (ps : List (List Char)) (s : List Char) :
    MatchString (compileJoined (ps.map quoteMeta)) s = true ↔ ContainsInOrder NoLineFeed ps s := by
  cases ps with
  | nil =>
    simp only [List.map_nil, compileJoined_nil, ContainsInOrder, iff_true, MatchString_iff]
    exact ⟨[], s, rfl, rfl⟩
  | cons t ts =>
    simp only [List.map_cons, compileJoined_cons, List.map_map, MatchString_iff,
      matchPrefix_quoteMeta, ContainsInOrder]
    have key : ∀ r, matchPrefix ((ts.map ((fun b => ReNode.dotStar :: b) ∘ quoteMeta)).flatten) r = true ↔
        Gapped NoLineFeed ts r := fun r => matchPrefix_gapped ts r
    constructor
    · rintro ⟨pre, rest, rfl, rest', rfl, h⟩
      exact ⟨pre, rest', by simp, (key _).1 h⟩
    · rintro ⟨pre, rest, rfl, h⟩
      exact ⟨pre, t ++ rest, by simp, rest, rfl, (key _).2 h⟩

theorem noLineFeed_nil : NoLineFeed [] := by simp [NoLineFeed]

theorem noLineFeed_append {g h : List Char} (hg : NoLineFeed g) (hh : NoLineFeed h) :
    NoLineFeed (g ++ h) := by
  intro c hc
  rcases List.mem_append.1 hc with hc | hc
  · exact hg c hc
  · exact hh c hc

theorem gapped_absorb (ts : List (List Char)) (g s : List Char) (hg : NoLineFeed g)
    (h : Gapped NoLineFeed ts s) : Gapped NoLineFeed ts (g ++ s) := by
  cases ts with
  | nil => trivial
  | cons t ts =>
    obtain ⟨g', rest, rfl, hg', hrest⟩ := h
    exact ⟨g ++ g', rest, by simp, noLineFeed_append hg hg', hrest⟩

theorem gapped_filter (ps : List (List Char)) (s : List Char) :
    Gapped NoLineFeed ps s ↔ Gapped NoLineFeed (ps.filter (fun t => !t.isEmpty)) s := by
  induction ps generalizing s with
  | nil => simp
  | cons p ps ih =>
    cases p with
    | nil =>
      simp only [List.filter_cons, List.isEmpty_nil, Bool.not_true, Bool.false_eq_true, if_false,
        Gapped, List.append_nil]
      constructor
      · rintro ⟨g, rest, rfl, hg, h⟩
        exact gapped_absorb _ _ _ hg ((ih rest).1 h)
      · intro h
        exact ⟨[], s, rfl, noLineFeed_nil, (ih s).2 h⟩
    | cons c p =>
      simp only [List.filter_cons, List.isEmpty_cons, Bool.not_false, if_true, Gapped]
      constructor
      · rintro ⟨g, rest, rfl, hg, h⟩
        exact ⟨g, rest, rfl, hg, (ih rest).1 h⟩
      · rintro ⟨g, rest, rfl, hg, h⟩
        exact ⟨g, rest, rfl, hg, (ih rest).2 h⟩

theorem containsInOrder_of_suffix (ts : List (List Char)) (s : List Char) :
    (∃ pre rest, s = pre ++ rest ∧ Gapped NoLineFeed ts rest) ↔ ContainsInOrder NoLineFeed ts s := by
  cases ts with
  | nil =>
    simp only [Gapped, ContainsInOrder, iff_true]
    exact ⟨[], s, rfl, trivial⟩
  | cons t ts =>
    simp only [Gapped, ContainsInOrder]
    constructor
    · rintro ⟨pre, rest, rfl, g, rest', rfl, -, h⟩
      exact ⟨pre ++ g, rest', by simp, h⟩
    · rintro ⟨pre, rest, rfl, h⟩
      exact ⟨pre, t ++ rest, by simp, [], rest, rfl, noLineFeed_nil, h⟩

theorem containsInOrder_filter (ps : List (List Char)) (s : List Char) :
    ContainsInOrder NoLineFeed ps s ↔
      ContainsInOrder NoLineFeed (ps.filter (fun t => !t.isEmpty)) s := by
  induction ps with
  | nil => simp
  | cons p ps ih =>
    cases p with
    | nil =>
      simp only [List.filter_cons, List.isEmpty_nil, Bool.not_true, Bool.false_eq_true, if_false]
      rw [← ih, ← containsInOrder_of_suffix ps s]
      simp [ContainsInOrder]
    | cons c p =>
      simp only [List.filter_cons, List.isEmpty_cons, Bool.not_false, if_true, ContainsInOrder]
      constructor
      · rintro ⟨pre, rest, rfl, h⟩
        exact ⟨pre, rest, rfl, (gapped_filter ps rest).1 h⟩
      · rintro ⟨pre, rest, rfl, h⟩
        exact ⟨pre, rest, rfl, (gapped_filter ps rest).2 h⟩

theorem splitWhitespace_space_last (c : Char) (hc : isSpace c = true) :
    splitWhitespace [c] = [[], []] := by
  rw [splitWhitespace]
  simp only [hc, if_true]
  rfl

theorem splitWhitespace_space_space (c d : Char) (ds : List Char) (hc : isSpace c = true)
    (hd : isSpace d = true) : splitWhitespace (c :: d :: ds) = splitWhitespace (d :: ds) := by
  conv_lhs => rw [splitWhitespace]
  simp only [hc, hd, if_true]

theorem splitWhitespace_space_other (c d : Char) (ds : List Char) (hc : isSpace c = true)
    (hd : ¬ isSpace d = true) :
    splitWhitespace (c :: d :: ds) = [] :: splitWhitespace (d :: ds) := by
  conv_lhs => rw [splitWhitespace]
  simp only [hc, hd, if_true, if_false, Bool.false_eq_true]

theorem splitWhitespace_other (c : Char) (cs p : List Char) (ps : List (List Char))
    (hc : ¬ isSpace c = true) (h : splitWhitespace cs = p :: ps) :
    splitWhitespace (c :: cs) = (c :: p) :: ps := by
  conv_lhs => unfold splitWhitespace
  simp only [hc, if_false, Bool.false_eq_true, h]

theorem splitWhitespace_head_of_space (d : Char) (ds : List Char) (hd : isSpace d = true) :
    ∃ ps, splitWhitespace (d :: ds) = [] :: ps := by
  induction ds generalizing d with
  | nil => exact ⟨_, splitWhitespace_space_last d hd⟩
  | cons e es ih =>
    by_cases he : isSpace e = true
    · obtain ⟨ps, hps⟩ := ih e he
      exact ⟨ps, by rw [splitWhitespace_space_space d e es hd he, hps]⟩
    · exact ⟨_, splitWhitespace_space_other d e es hd he⟩

theorem splitWhitespace_splitOnP (s : List Char) :
    ∃ p ps qs, splitWhitespace s = p :: ps ∧ s.splitOnP isSpace = p :: qs ∧
      ps.filter (fun t => !t.isEmpty) = qs.filter (fun t => !t.isEmpty) := by
  induction s with
  | nil => exact ⟨[], [], [], rfl, rfl, rfl⟩
  | cons c cs ih =>
    obtain ⟨p, ps, qs, h1, h2, h3⟩ := ih
    by_cases hc : isSpace c = true
    · refine ⟨[], ?_⟩
      rw [List.splitOnP_cons, if_pos hc, h2]
      cases cs with
      | nil =>
        have hp : p = [] ∧ ps = [] := by
          have : ([[]] : List (List Char)) = p :: ps := h1
          simpa [eq_comm] using this
        have hq : p = [] ∧ qs = [] := by
          rw [List.splitOnP_nil] at h2
          simpa [eq_comm] using h2
        refine ⟨_, _, splitWhitespace_space_last c hc, rfl, ?_⟩
        simp [hp.1, hq.2]
      | cons d ds =>
        by_cases hd : isSpace d = true
        · obtain ⟨ps', hps'⟩ := splitWhitespace_head_of_space d ds hd
          rw [hps'] at h1
          obtain ⟨rfl, rfl⟩ := List.cons.inj h1
          refine ⟨ps', _, by rw [splitWhitespace_space_space c d ds hc hd, hps'], rfl, ?_⟩
          simp [h3]
        · refine ⟨_, _, splitWhitespace_space_other c d ds hc hd, rfl, ?_⟩
          rw [h1]
          by_cases hp : p = [] <;> simp [hp, h3]
    · refine ⟨c :: p, ps, qs, splitWhitespace_other c cs p ps hc h1, ?_, h3⟩
      rw [List.splitOnP_cons, if_neg hc, h2]
      rfl

theorem splitWhitespace_filter (s : List Char) :
    (splitWhitespace s).filter (fun t => !t.isEmpty) = tokens s := by
  obtain ⟨p, ps, qs, h1, h2, h3⟩ := splitWhitespace_splitOnP s
  simp only [tokens, h1, h2, List.filter_cons, h3]

theorem filterItems_eq_filter (deps : Deps) (regex : List ReNode) (items : List CachedCatalogItem) :
    filterItems deps regex items =
      items.filter (fun item => MatchString regex (toLower deps item.toMetaPreview.Name)) := by
  unfold filterItems
  suffices h : ∀ acc, items.foldl
      (fun filteredItems item =>
        if MatchString regex (toLower deps item.toMetaPreview.Name) then filteredItems ++ [item]
        else filteredItems) acc =
      acc ++ items.filter (fun item => MatchString regex (toLower deps item.toMetaPreview.Name)) by
    simpa using h []
  induction items with
  | nil => simp
  | cons item rest ih =>
    intro acc
    rw [List.foldl_cons, ih]
    by_cases h : MatchString regex (toLower deps item.toMetaPreview.Name) = true <;> simp [h]

/-- C2, as amended: the search filter returns, in their original order, exactly the items
whose lowered display name contains the whitespace-separated tokens of the lowered search
text in order, anywhere in the name, with any runes other than line feed between one
token and the next. -/
theorem searchItems_spec (deps : Deps) (search : String) (items : List CachedCatalogItem) :
    ∃ p : CachedCatalogItem → Bool,
      (∀ item, p item = true ↔
        ContainsInOrder NoLineFeed (tokens (toLower deps search))
          (toLower deps item.toMetaPreview.Name)) ∧
      searchItems deps search items = items.filter p := by
  refine ⟨fun item => MatchString (searchRegex deps search) (toLower deps item.toMetaPreview.Name),
    ?_, filterItems_eq_filter _ _ _⟩
  intro item
  simp only [searchRegex]
  rw [MatchString_compileJoined, containsInOrder_filter, splitWhitespace_filter]

/-- C2, counterexample: the name of the item contains the tokens `a` and `b` of the search
text in order, a line feed standing between them, and the filter does not return the
item. -/
theorem searchItems_line_feed :
    ContainsInOrder (fun _ => True) (tokens (toLower refDeps "a b")) (toLower refDeps "a\nb") ∧
    searchItems refDeps "a b" [named "a\nb"] = [] := by
  refine ⟨?_, by decide⟩
  have ht : tokens (toLower refDeps "a b") = [['a'], ['b']] := by decide
  rw [ht]
  exact ⟨[], ['\n', 'b'], by decide, ['\n'], [], by decide, trivial, trivial⟩

theorem toLower_ascii (deps : Deps) (h : ∀ c : Char, c.toNat < 128 → deps.ToLower c = asciiToLower c)
    (s : String) (hs : ∀ c ∈ s.data, c.toNat < 128) :
    toLower deps s = s.data.map asciiToLower := by
  unfold toLower
  exact List.map_congr_left (fun c hc => h c (hs c hc))

/-- C9, as amended: for the search text `the matrix` and the items named
`The Matrix Reloaded`, `Matrix Revolutions` and `The Notebook`, the search filter returns
the first item only, whatever `unicode.ToLower` does outside ASCII. -/
theorem search_the_matrix (deps : Deps)
    (h : ∀ c : Char, c.toNat < 128 → deps.ToLower c = asciiToLower c) :
    searchItems deps "the matrix"
      [named "The Matrix Reloaded", named "Matrix Revolutions", named "The Notebook"] =
      [named "The Matrix Reloaded"] := by
  have e0 := toLower_ascii deps h "the matrix" (by decide)
  have e1 := toLower_ascii deps h "The Matrix Reloaded" (by decide)
  have e2 := toLower_ascii deps h "Matrix Revolutions" (by decide)
  have e3 := toLower_ascii deps h "The Notebook" (by decide)
  simp only [searchItems, filterItems, searchRegex, List.foldl, named, e0, e1, e2, e3]
  decide

/-- Witness of C9: the dependencies of the examples, which lower ASCII letters. -/
theorem search_the_matrix_witness :
    searchItems refDeps "the matrix"
      [named "The Matrix Reloaded", named "Matrix Revolutions", named "The Notebook"] =
      [named "The Matrix Reloaded"] :=
  search_the_matrix refDeps (fun _ _ => rfl)

/-- C9, counterexample: the filter does not return the first two items; the name
`Matrix Revolutions` lacks the token `the`. -/
theorem search_the_matrix_not_two :
    searchItems refDeps "the matrix"
      [named "The Matrix Reloaded", named "Matrix Revolutions", named "The Notebook"] ≠
      [named "The Matrix Reloaded", named "Matrix Revolutions"] := by
  decide

/-! ## The pager -/

theorem wrapInt_of_inRange (x : Int) (h0 : minInt ≤ x) (h1 : x ≤ maxInt) : wrapInt x = x := by
  simp only [wrapInt, minInt, maxInt] at *
  omega

/-- The pager on the skips whose sum with the limit is still an `int`: the page is the run
of at most 100 items from index `skip` on, of length `min 100 (n - skip)`. -/
theorem pageItems_of_inRange {α : Type} (items : List α) (skip : Int) (h0 : 0 ≤ skip)
    (h1 : skip + 100 ≤ maxInt) :
    pageItems items skip = Except.ok ((items.drop skip.toNat).take 100) ∧
    ((items.drop skip.toNat).take 100).length = min 100 (items.length - skip.toNat) := by
  have hw : wrapInt (skip + 100) = skip + 100 :=
    wrapInt_of_inRange _ (by simp only [minInt]; omega) h1
  obtain ⟨k, rfl⟩ := Int.eq_ofNat_of_zero_le h0
  refine ⟨?_, by simp⟩
  simp only [pageItems, hw, sliceExpr, Int.toNat_ofNat]
  have hc : 0 ≤ min (k : Int) (items.length : Int) ∧
      min (k : Int) (items.length : Int) ≤ min ((k : Int) + 100) (items.length : Int) ∧
      min ((k : Int) + 100) (items.length : Int) ≤ (items.length : Int) := by
    omega
  simp only [if_pos hc]
  refine congrArg Except.ok ?_
  by_cases hk : k ≤ items.length
  · have e1 : (min (k : Int) (items.length : Int)).toNat = k := by omega
    have e2 : (min ((k : Int) + 100) (items.length : Int)).toNat = min (k + 100) items.length := by
      omega
    rw [e1, e2]
    apply List.ext_getElem?
    intro i
    simp only [List.getElem?_take, List.getElem?_drop]
    by_cases hi : i < 100
    · by_cases hi2 : i < min (k + 100) items.length - k
      · simp [hi, hi2]
      · have : items.length ≤ k + i := by omega
        simp [hi, hi2, List.getElem?_eq_none this]
    · have : ¬ i < min (k + 100) items.length - k := by omega
      simp [hi, this]
  · have e1 : (min (k : Int) (items.length : Int)).toNat = items.length := by omega
    have hk2 : items.length ≤ k := by omega
    rw [e1, List.drop_of_length_le (le_refl _), List.drop_of_length_le hk2]
    simp

set_option maxRecDepth 4000 in
/-- C1, at the failing input: `strconv.Atoi` accepts the text of the largest `int`,
`getExtra` passes it on as `Skip`, the sum `Skip + limit` wraps around to a negative
upper bound, and `handleCatalog` panics on the slice expression instead of replying with
an empty page. -/
theorem handleCatalog_skip_maxInt_panics :
    (getExtra refDeps "skip=9223372036854775807").Skip = 9223372036854775807 ∧
    wrapInt (9223372036854775807 + 100) = -9223372036854775709 ∧
    (runCatalog "skip=9223372036854775807" (fun _ => Except.ok (fun _ => ""))
      [cachedItem "a" "h1", cachedItem "b" "h2"]).reply =
      Reply.panic "runtime error: slice bounds out of range" := by
  refine ⟨?_, ?_, ?_⟩ <;> decide

set_option maxRecDepth 4000 in
/-- C7, at the failing input: the extra parameters `skip=-1` give `Skip = -1`, the lower
bound `min(Skip, totalItems)` is negative, and `handleCatalog` panics on the slice
expression instead of replying with an empty page. -/
theorem handleCatalog_skip_negative_panics :
    (getExtra refDeps "skip=-1").Skip = -1 ∧
    pageItems [cachedItem "a" "h1", cachedItem "b" "h2"] (-1) =
      Except.error "runtime error: slice bounds out of range" ∧
    (runCatalog "skip=-1" (fun _ => Except.ok (fun _ => ""))
      [cachedItem "a" "h1", cachedItem "b" "h2"]).reply =
      Reply.panic "runtime error: slice bounds out of range" := by
  refine ⟨?_, ?_, ?_⟩ <;> decide

/-! ## The enrichment step -/

theorem enrichLoop_fst (deps : Deps) (m : StremIdLookup) (items : List CachedCatalogItem) :
    (enrichLoop deps m items).1 = items.map (enrichItem deps m) := by
  induction items with
  | nil => rfl
  | cons item rest ih => simp [enrichLoop, ih]

theorem enrichLoop_snd (deps : Deps) (m : StremIdLookup) (items : List CachedCatalogItem) :
    (enrichLoop deps m items).2 =
      items.map (fun item => (enrichItem deps m item).toMetaPreview) := by
  induction items with
  | nil => rfl
  | cons item rest ih => simp [enrichLoop, ih]

theorem enrichItem_error (deps : Deps) (e : String) (item : CachedCatalogItem) :
    enrichItem deps (Except.error e) item = item := by
  simp [enrichItem, StremIdLookup.Get]

/-- C5: whatever the batch lookup answers, the enrichment step of `handleCatalog` sends a
200 reply whose `Metas` pair off with the items of the page, each with the `Id`, `Type`,
`Name`, `Description` and `PosterShape` of its item; when the lookup fails the `Metas` are
the `MetaPreview`s of the page as they were, so no item gets a `Poster`. -/
theorem enrichAndSend_metas (deps : Deps) (lookup : List String → StremIdLookup)
    (page : List CachedCatalogItem) :
    ∃ metas, (enrichAndSend deps lookup page).2 = Reply.sent 200 metas ∧
      metas.length = page.length ∧
      List.Forall₂
        (fun item m => m.Id = item.toMetaPreview.Id ∧ m.Type_ = item.toMetaPreview.Type_ ∧
          m.Name = item.toMetaPreview.Name ∧
          m.Description = item.toMetaPreview.Description ∧
          m.PosterShape = item.toMetaPreview.PosterShape)
        page metas ∧
      (∀ e, lookup (page.map (fun item => item.hash)) = Except.error e →
        metas = page.map (fun item => item.toMetaPreview) ∧
        (enrichAndSend deps lookup page).1 = page) := by
  refine ⟨_, rfl, ?_, ?_, ?_⟩
  · simp [enrichLoop_snd]
  · rw [enrichLoop_snd]
    generalize lookup (page.map (fun item => item.hash)) = m
    induction page with
    | nil => exact List.Forall₂.nil
    | cons item rest ih =>
      refine List.Forall₂.cons ?_ ih
      by_cases h : m.Get item.hash = "" <;> simp [enrichItem, h]
  · intro e he
    have hid : enrichItem deps (Except.error e) = id := funext (enrichItem_error deps e)
    simp only [enrichAndSend, enrichLoop_snd, enrichLoop_fst, he, hid]
    simp

/-- Witness of C5: a page of two items and a lookup that fails. -/
theorem enrichAndSend_metas_witness :
    (enrichAndSend refDeps (fun _ => Except.error "index unavailable")
      [cachedItem "a" "h1", cachedItem "b" "h2"]).2 =
      Reply.sent 200 [{ Name := "a" }, { Name := "b" }] := by
  obtain ⟨metas, h, -, -, herr⟩ := enrichAndSend_metas refDeps
    (fun _ => Except.error "index unavailable") [cachedItem "a" "h1", cachedItem "b" "h2"]
  rw [h, (herr "index unavailable" rfl).1]
  rfl

/-- C10, at the failing input: without a search text the variable `items` of
`handleCatalog` is the very slice the cache holds, and the enrichment loop writes the
poster into it; the cached item has no poster before the request and has one after. -/
theorem handleCatalog_writes_cached_poster :
    (oneEntryCache [cachedItem "x" "h"]).Get (getCatalogCacheKey "st:store:ad:" "tok") =
      some [cachedItem "x" "h"] ∧
    (cachedItem "x" "h").toMetaPreview.Poster = "" ∧
    (runCatalog "" (fun _ => Except.ok (fun _ => "tt0133093:1:1")) [cachedItem "x" "h"]).cached =
      [{ toMetaPreview :=
          { Name := "x", Poster := "https://images.metahub.space/poster/small/tt0133093/img" }
         hash := "h" }] := by
  decide

/-- With a search text the page is made of copies, and the slice the cache holds is the
same after the request as `getCatalogItems` returned it. -/
theorem handleCatalog_search_keeps_cached {σ : Type} (deps : Deps) (s : Store σ)
    (storeCode storeToken clientIp idPrefix : String) (isUsenet : Bool)
    (extraParams : String) (lookup : List String → StremIdLookup) (cache : Cache) (remote : σ)
    (hgenre : (getExtra deps extraParams).Genre ≠ deps.CatalogGenreStremThru)
    (hsearch : (getExtra deps extraParams).Search ≠ "") :
    (handleCatalog deps s storeCode storeToken clientIp idPrefix isUsenet extraParams lookup
      cache remote).cached =
      (getCatalogItems deps s storeToken clientIp idPrefix isUsenet cache remote).items := by
  simp only [handleCatalog, hgenre, hsearch, if_false, ne_eq, not_false_eq_true, decide_True,
    if_true]
  split <;> rfl

end StremThru
